import Mathlib

/-!
Verification development for the unification core of a logic-programming
database (files `src/database/mod.rs` and `src/database/unification.rs`).

The Rust code is embedded shallowly:

* `DBValue`, `Value`, `GlobPosition`, `EqOp`, `Constraint` mirror the Rust
  enums; `BigInt` becomes `Int`, `BigUint` becomes `Nat`, `String` stays
  `String` (with the character-wise `toUpperStr` standing in for
  `to_uppercase`).
* `Bindings` (a `HashMap<VariableName, Value>` in Rust) is an association
  list with `bGet` for `get` and `bInsert` for `insert` (replacing the key).
* The recursive unifier `lax_unify` together with `unify_pattern_match` is
  embedded as the single fuel-indexed function `uRun`; recursion in the Rust
  code is unbounded (variable chains may be cyclic), so every recursive step
  consumes one unit of fuel and exhaustion is the explicit outcome
  `URes.fuelOut`.  The out-of-range vector slice `list[i..i+n]` in the
  `Middle` glob arm aborts the Rust process; that abort is the explicit
  outcome `URes.panic`.
-/

namespace AtomicDB

/-- The ground value universe, mirroring the Rust enum `DBValue`. -/
inductive DBValue where
  | text (s : String)
  | number (n : Int)
  | float (n : Int) (d : Nat)
  | relationID (r : String)
  | list (l : List DBValue)
deriving Repr

/-- Glob anchor positions, mirroring the Rust enum `GlobPosition`. -/
inductive GlobPosition where
  | head
  | tail
  | middle
deriving Repr, DecidableEq

/-- The query-language value universe, mirroring the Rust enum `Value`.
The constructor `pat` carries the fields `explicit_values`, `is_glob` and
`glob_position` of the Rust struct variant `PatternMatch`. -/
inductive Value where
  | lit (d : DBValue)
  | var (x : String)
  | pat (explicitValues : List Value) (isGlob : Bool) (globPosition : GlobPosition)
deriving Repr

/-- Comparison operators, mirroring the Rust enum `EqOp`. -/
inductive EqOp where
  | greaterThan
  | equalTo
  | lessThan
  | lessThanOrEqualTo
  | greaterThanOrEqualTo
deriving Repr, DecidableEq

/-- Constraints, mirroring the Rust enum `Constraint`. -/
inductive Constraint where
  | relation (id : String) (tokens : List Value)
  | unification (l r : List Value)
  | comparison (op : EqOp) (a b : Value)
  | not (c : Constraint)
  | alternatives (cs : List Constraint)
  | intersections (cs : List Constraint)
deriving Repr

/-- Variable environments: the Rust `Bindings = HashMap<VariableName, Value>`
modelled as an association list with distinct keys maintained by `bInsert`. -/
abbrev Bindings := List (String × Value)

/-- Lookup in an environment, mirroring `HashMap::get`. -/
def bGet (b : Bindings) (k : String) : Option Value :=
  (b.find? (fun p => p.1 == k)).map (fun p => p.2)

/-- Insertion into an environment, mirroring `HashMap::insert`: any previous
entry for the key is replaced. -/
def bInsert (b : Bindings) (k : String) (v : Value) : Bindings :=
  (k, v) :: b.filter (fun p => p.1 != k)

/-- The Rust `str::to_uppercase`, modelled as the character-wise upper-case
map over the underlying character list. -/
def toUpperStr (s : String) : String :=
  String.mk (s.data.map Char.toUpper)

/-- Equality on ground values, translated arm by arm from
`impl PartialEq for DBValue` in `mod.rs` (lines 22-36).  Note that the Rust
match has no `List`/`List` arm, so two lists fall into the catch-all and are
never equal. -/
def dbvEq : DBValue → DBValue → Bool
  | .text s1, .text s2 => s1 == s2
  | .number n1, .number n2 => n1 == n2
  | .number n1, .float n2 d2 => d2 == 0 && n1 == n2
  | .float n1 d1, .number n2 => d1 == 0 && n1 == n2
  | .float n1 d1, .float n2 d2 => d1 == d2 && n1 == n2
  | .relationID r1, .relationID r2 => toUpperStr r1 == toUpperStr r2
  | _, _ => false

/-- Partial ordering on ground values, translated arm by arm from
`impl PartialOrd for DBValue` in `mod.rs` (lines 40-71). -/
def dbvPartialCmp : DBValue → DBValue → Option Ordering
  | .text s1, .text s2 => some (compare s1 s2)
  | .number n1, .number n2 => some (compare n1 n2)
  | .number n1, .float n2 d2 =>
      if n1 == n2 then some (compare 0 d2) else some (compare n1 n2)
  | .float n1 d1, .number n2 =>
      if n1 == n2 then some (compare 0 d1) else some (compare n1 n2)
  | .float n1 d1, .float n2 d2 =>
      if n1 == n2 then some (compare d1 d2) else some (compare n1 n2)
  | _, _ => none

mutual
/-- Modelled from the spec: the section 3 equality on `DBValue` as the spec
states it ("structural within same tag", so two lists are equal exactly when
elementwise equal; `Number(n)` equals `Float(n, 0)`; `RelationID` equality is
case-insensitive; all other cross-tag pairs unequal).  Kept separate from the
source-translated `dbvEq` so the two can be compared. -/
def specEq : DBValue → DBValue → Bool
  | .text s1, .text s2 => s1 == s2
  | .number n1, .number n2 => n1 == n2
  | .number n1, .float n2 d2 => d2 == 0 && n1 == n2
  | .float n1 d1, .number n2 => d1 == 0 && n1 == n2
  | .float n1 d1, .float n2 d2 => n1 == n2 && d1 == d2
  | .relationID r1, .relationID r2 => toUpperStr r1 == toUpperStr r2
  | .list l1, .list l2 => specEqList l1 l2
  | _, _ => false

/-- Elementwise section 3 equality on lists of ground values. -/
def specEqList : List DBValue → List DBValue → Bool
  | [], [] => true
  | x :: xs, y :: ys => specEq x y && specEqList xs ys
  | _, _ => false
end

/-- Outcome of a run of the unifier: `Ok`, `Err` (each carrying an
environment, as the Rust `Result<Bindings, Bindings>` does), a Rust panic, or
fuel exhaustion (standing for non-termination of the unbounded Rust
recursion). -/
inductive URes where
  | ok (b : Bindings)
  | err (b : Bindings)
  | panic
  | fuelOut
deriving Repr

/-- A pending call of the unifier: `unify` stands for `lax_unify`, `pmatch`
for `unify_pattern_match`, and `middle` for one iteration of the `for i in
0..list.len()` loop of the `Middle` glob arm (carrying the running `output`
accumulator). -/
inductive UCall where
  | unify (av bv : List Value) (b : Bindings)
  | pmatch (list : List DBValue) (ev : List Value) (g : Bool) (gp : GlobPosition) (b : Bindings)
  | middle (listV : List Value) (ev : List Value) (n : Nat) (b : Bindings) (i : Nat) (output : URes)

/-- One fuel-indexed interpreter for the mutually recursive Rust functions
`lax_unify` (lines 92-184) and `unify_pattern_match` (lines 186-249) of
`unification.rs`.  Every recursive call of the Rust code consumes one unit of
fuel; the `i + n > len` slice abort of the `Middle` arm produces
`URes.panic`. -/
def uRun : Nat → UCall → URes
  | 0, _ => .fuelOut
  | fuel + 1, c =>
    match c with
    | .unify [] _ b => .ok b
    | .unify (_ :: _) [] b => .ok b
    | .unify (i :: av) (j :: bv) b =>
      match i, j with
      | .lit x, .lit y =>
        if dbvEq x y then uRun fuel (.unify av bv b) else .err b
      | .var x, .lit _ =>
        match bGet b x with
        | some vx =>
          match uRun fuel (.unify [vx] [j] b) with
          | .ok b2 => uRun fuel (.unify av bv b2)
          | r => r
        | none => uRun fuel (.unify av bv (bInsert b x j))
      | .lit _, .var y =>
        match bGet b y with
        | some vy =>
          match uRun fuel (.unify [i] [vy] b) with
          | .ok b2 => uRun fuel (.unify av bv b2)
          | r => r
        | none => uRun fuel (.unify av bv (bInsert b y i))
      | .var x, .var y => uRun fuel (.unify av bv (bInsert b x (.var y)))
      | .lit (.list l), .pat ev g gp =>
        match uRun fuel (.pmatch l ev g gp b) with
        | .ok b2 => uRun fuel (.unify av bv b2)
        | r => r
      | .pat ev g gp, .lit (.list l) =>
        match uRun fuel (.pmatch l ev g gp b) with
        | .ok b2 => uRun fuel (.unify av bv b2)
        | r => r
      | _, _ => .err b
    | .pmatch list ev g gp b =>
      if !g then
        uRun fuel (.unify ev (list.map .lit) b)
      else
        match gp with
        | .head => uRun fuel (.unify ev ((list.take ev.length).map .lit) b)
        | .tail => uRun fuel (.unify ev ((list.reverse.take ev.length).map .lit) b)
        | .middle => uRun fuel (.middle (list.map .lit) ev ev.length b 0 (.err []))
    | .middle listV ev n b i output =>
      if i < listV.length then
        if i + n ≤ listV.length then
          match uRun fuel (.unify ev ((listV.drop i).take n) b) with
          | .ok b2 => uRun fuel (.middle listV ev n b (i + 1) (.ok b2))
          | .err b2 =>
            match output with
            | .err bOut =>
              if bOut.length < b2.length then
                uRun fuel (.middle listV ev n b (i + 1) (.err b2))
              else
                uRun fuel (.middle listV ev n b (i + 1) output)
            | _ => uRun fuel (.middle listV ev n b (i + 1) output)
          | r => r
        else .panic
      else output

/-- The Rust entry point `lax_unify(av, bv, bindings)`. -/
def laxUnify (fuel : Nat) (av bv : List Value) (b : Bindings) : URes :=
  uRun fuel (.unify av bv b)

/-- The Rust function `unify_pattern_match(list, explicit_values, is_glob,
glob_position, new_bindings)`. -/
def unifyPatternMatch (fuel : Nat) (list : List DBValue) (ev : List Value)
    (g : Bool) (gp : GlobPosition) (b : Bindings) : URes :=
  uRun fuel (.pmatch list ev g gp b)

/-- The Rust function `unify_compare(op, a, b, bindings)` (lines 251-283 of
`unification.rs`); binding chains may be cyclic, so chasing is fuel-indexed
and `none` stands for non-termination. -/
def unifyCompare : Nat → EqOp → Value → Value → Bindings → Option Bool
  | 0, _, _, _, _ => none
  | fuel + 1, op, a, b, env =>
    match a, b with
    | .lit x, .lit y =>
      some (match op with
        | .greaterThan => dbvPartialCmp x y == some .gt
        | .equalTo => dbvEq x y
        | .lessThan => dbvPartialCmp x y == some .lt
        | .lessThanOrEqualTo =>
            dbvPartialCmp x y == some .lt || dbvPartialCmp x y == some .eq
        | .greaterThanOrEqualTo =>
            dbvPartialCmp x y == some .gt || dbvPartialCmp x y == some .eq)
    | .var x, .lit _ =>
      match bGet env x with
      | some xval => unifyCompare fuel op xval b env
      | none => some true
    | .lit _, .var y =>
      match bGet env y with
      | some yval => unifyCompare fuel op a yval env
      | none => some true
    | .var x, .var y =>
      match bGet env x, bGet env y with
      | some xval, some yval => unifyCompare fuel op xval yval env
      | _, _ => some true
    | _, _ => some false

/-- Lookup in a keyed table (the Rust `HashMap<RelationID, _>` fields of
`Database`), modelled over an association list. -/
def mGet {α : Type} (m : List (String × α)) (k : String) : Option α :=
  (m.find? (fun p => p.1 == k)).map (fun p => p.2)

/-- Insertion into a keyed table, mirroring `HashMap::insert`: any previous
entry for the key is replaced. -/
def mSet {α : Type} (m : List (String × α)) (k : String) (v : α) : List (String × α) :=
  (k, v) :: m.filter (fun p => p.1 != k)

/-- The Rust struct `Database` (`mod.rs` lines 73-76): fact tables keyed by
relation id, and a rule table. -/
structure Database where
  facts : List (String × List (List DBValue))
  rules : List (String × (List Value × List Constraint))

/-- The Rust method `Database::insert_rule` (`mod.rs` lines 86-88). -/
def insertRule (db : Database) (id : String) (args : List Value)
    (constraints : List Constraint) : Database :=
  { db with rules := mSet db.rules (toUpperStr id) (args, constraints) }

/-- The Rust method `Database::insert_fact` (`mod.rs` lines 90-110).  The
two `panic!` arms are modelled as `none`. -/
def insertFact (db : Database) (vs : List DBValue) : Option Database :=
  match vs.get? 1 with
  | some (.relationID rel) =>
    let rel := toUpperStr rel
    let vs2 := vs.eraseIdx 1
    match mGet db.facts rel with
    | some rels => some { db with facts := mSet db.facts rel (rels ++ [vs2]) }
    | none => some { db with facts := mSet db.facts rel [vs2] }
  | some _ => none
  | none => none

/-- The sequence of items produced by `InnerFactPossibilitiesIter`
(`unification.rs` lines 312-333) from field `fact_index = idx` onward: while
the index is in range of the fact table entry for `id`, each step unifies
`tokens` against the stored fact viewed as literals and advances the index;
an absent table entry or an exhausted index produces no further items. -/
def factSeqFrom (fuel : Nat) (tokens : List Value) (env : Bindings)
    (facts : List (List DBValue)) (idx : Nat) : List URes :=
  if _h : idx < facts.length then
    laxUnify fuel tokens ((facts.getD idx []).map .lit) env ::
      factSeqFrom fuel tokens env facts (idx + 1)
  else []
termination_by facts.length - idx
decreasing_by omega

/-- The `next` method of the iterator begins by looking the relation id up in the
fact table; an absent entry yields nothing at all. -/
def innerFactSeq (fuel : Nat) (db : Database) (id : String) (tokens : List Value)
    (env : Bindings) (idx : Nat) : List URes :=
  match mGet db.facts id with
  | none => []
  | some facts => factSeqFrom fuel tokens env facts idx

/-- The `Result`-swapping map of the `Not` arm (`unification.rs` line 475):
`map_or_else(|x| Ok(x), |x| Err(x))`. -/
def flipRes : URes → URes
  | .ok b => .err b
  | .err b => .ok b
  | r => r

mutual
/-- The full sequence of items yielded by the iterator
`PossibleBindings::new(constraint, db, env)` (`unification.rs` lines
416-508), arm by arm: `Relation` drains the fact iterator (the rule branch
is commented out in the source), `Comparison` and `Unification` yield at
most one `Ok`, `Not` maps `flipRes` over the inner sequence, `Alternatives`
concatenates the sub-sequences, and `Intersections` lifts the bindings
produced by the backtracking driver.  A diverging or aborting sub-call is
kept as a single `fuelOut` or `panic` item. -/
def possible (fuel : Nat) (db : Database) : Constraint → Bindings → List URes
  | .relation id tokens, env => innerFactSeq fuel db id tokens env 0
  | .comparison op a b, env =>
    match unifyCompare fuel op a b env with
    | some true => [.ok env]
    | some false => []
    | none => [.fuelOut]
  | .unification avs bvs, env =>
    match laxUnify fuel avs bvs env with
    | .ok b2 => [.ok b2]
    | .err _ => []
    | r => [r]
  | .not c, env => (possible fuel db c env).map flipRes
  | .alternatives cs, env => possibleList fuel db cs env
  | .intersections cs, env => (backtrack fuel db cs env).map URes.ok

/-- Concatenation of the per-alternative sequences, mirroring the
`flat_map` of the `Alternatives` arm. -/
def possibleList (fuel : Nat) (db : Database) : List Constraint → Bindings → List URes
  | [], _ => []
  | c :: cs, env => possible fuel db c env ++ possibleList fuel db cs env

/-- Modelled from the spec: the backtracking driver `BacktrackingQuery`
(section 4.3), whose source file `backtracking.rs` is not part of the
provided sources.  An empty constraint list yields the environment once;
otherwise each `Ok` drawn from the possibility stream of the head constraint
seeds a recursive drive over the tail, and every non-`Ok` item is
discarded. -/
def backtrack (fuel : Nat) (db : Database) : List Constraint → Bindings → List Bindings
  | [], env => [env]
  | c :: rest, env =>
    (possible fuel db c env).flatMap fun r =>
      match r with
      | .ok e => backtrack fuel db rest e
      | _ => []
end

/-- Modelled from the spec: substitution of an environment into a value
position ("substituting the bindings into L and R", section 8), chasing
variable bindings; chains may be cyclic, so chasing is fuel-indexed. -/
def substValue (fuel : Nat) (b : Bindings) (v : Value) : Value :=
  match fuel, v with
  | fuel + 1, .var x =>
    match bGet b x with
    | some w => substValue fuel b w
    | none => .var x
  | _, v => v

/-- Modelled from the spec: following ("chasing") variable bindings through
the environment, as the claim about `unify_compare` words it.  The result is
`some` of the first non-variable value or the first unbound variable on the
chain, and `none` when the chain outruns the fuel (e.g. a cyclic chain). -/
def chase (env : Bindings) : Nat → Value → Option Value
  | 0, _ => none
  | fuel + 1, .var x =>
    match bGet env x with
    | some w => chase env fuel w
    | none => some (.var x)
  | _ + 1, v => some v

/-- Whether a run outcome is an `Err` whose carried environment has at least
one key. -/
def isErrWithKey : URes → Bool
  | .err b => !b.isEmpty
  | _ => false

/-- The ground list of the claimed `Middle` glob example (spec section 8,
scenario 6): `List([1, 2, 3, 4])`. -/
def c2List : List DBValue :=
  [DBValue.number 1, DBValue.number 2, DBValue.number 3, DBValue.number 4]

/-- The explicit values of the claimed `Middle` glob example:
`[Literal 9, Variable X]`. -/
def c2Pattern : List Value :=
  [Value.lit (DBValue.number 9), Value.var "X"]

/-- Whether a query value is a `PatternMatch`. -/
def Value.isPat : Value → Bool
  | .pat _ _ _ => true
  | _ => false

/- ------------------------------------------------------------------ -/
/- Helper lemmas shared between claims.                               -/
/- ------------------------------------------------------------------ -/

theorem reverse_take_eq_drop_reverse {α : Type} (l : List α) (n : Nat) :
    l.reverse.take n = (l.drop (l.length - n)).reverse := by
  have h := List.rtake_eq_reverse_take_reverse (l := l) (n := n)
  rw [List.rtake] at h
  rw [h, List.reverse_reverse]

/-- A variable whose binding chain ends at an unbound variable compares
`true` against a literal: the `Variable`/`Literal` arm of `unify_compare`
recurses along the chain and the unbound end returns `true`. -/
theorem chase_unbound_var_lit : ∀ (f : Nat) (op : EqOp) (x z : String) (d : DBValue)
    (env : Bindings), chase env f (Value.var x) = some (Value.var z) →
    unifyCompare f op (Value.var x) (Value.lit d) env = some true := by
  intro f
  induction f with
  | zero => intro op x z d env h; exact absurd h (by simp [chase])
  | succ g ih =>
    intro op x z d env h
    cases hb : bGet env x with
    | none => simp [unifyCompare, hb]
    | some w =>
      simp only [chase, hb] at h
      have hstep : unifyCompare (g + 1) op (Value.var x) (Value.lit d) env
          = unifyCompare g op w (Value.lit d) env := by
        simp [unifyCompare, hb]
      rw [hstep]
      cases w with
      | var x2 => exact ih op x2 z d env h
      | lit l =>
        cases g with
        | zero => exact absurd h (by simp [chase])
        | succ g2 => exact absurd h (by simp [chase])
      | pat evs gl gp =>
        cases g with
        | zero => exact absurd h (by simp [chase])
        | succ g2 => exact absurd h (by simp [chase])

/-- Mirror of `chase_unbound_var_lit` for the `Literal`/`Variable` arm. -/
theorem chase_unbound_lit_var : ∀ (f : Nat) (op : EqOp) (d : DBValue) (x z : String)
    (env : Bindings), chase env f (Value.var x) = some (Value.var z) →
    unifyCompare f op (Value.lit d) (Value.var x) env = some true := by
  intro f
  induction f with
  | zero => intro op d x z env h; exact absurd h (by simp [chase])
  | succ g ih =>
    intro op d x z env h
    cases hb : bGet env x with
    | none => simp [unifyCompare, hb]
    | some w =>
      simp only [chase, hb] at h
      have hstep : unifyCompare (g + 1) op (Value.lit d) (Value.var x) env
          = unifyCompare g op (Value.lit d) w env := by
        simp [unifyCompare, hb]
      rw [hstep]
      cases w with
      | var x2 => exact ih op d x2 z env h
      | lit l =>
        cases g with
        | zero => exact absurd h (by simp [chase])
        | succ g2 => exact absurd h (by simp [chase])
      | pat evs gl gp =>
        cases g with
        | zero => exact absurd h (by simp [chase])
        | succ g2 => exact absurd h (by simp [chase])

/-- In the `Variable`/`Variable` arm, a left chain ending at an unbound
variable gives `true` provided the right chain does not run into a
`PatternMatch` value (which would fall to the catch-all `false` arm). -/
theorem chase_unbound_var_var_left : ∀ (f : Nat) (op : EqOp) (x z y : String)
    (env : Bindings), chase env f (Value.var x) = some (Value.var z) →
    (∀ evs gl gp, chase env f (Value.var y) ≠ some (Value.pat evs gl gp)) →
    unifyCompare f op (Value.var x) (Value.var y) env = some true := by
  intro f
  induction f with
  | zero => intro op x z y env h hy; exact absurd h (by simp [chase])
  | succ g ih =>
    intro op x z y env h hy
    cases hbx : bGet env x with
    | none => simp [unifyCompare, hbx]
    | some xv =>
      simp only [chase, hbx] at h
      cases hby : bGet env y with
      | none => simp [unifyCompare, hbx, hby]
      | some yv =>
        have hy2 : ∀ evs gl gp, chase env g yv ≠ some (Value.pat evs gl gp) := by
          intro evs gl gp hc
          exact hy evs gl gp (by simp [chase, hby, hc])
        have hstep : unifyCompare (g + 1) op (Value.var x) (Value.var y) env
            = unifyCompare g op xv yv env := by
          simp [unifyCompare, hbx, hby]
        rw [hstep]
        cases xv with
        | var x2 =>
          cases yv with
          | var y2 => exact ih op x2 z y2 env h hy2
          | lit l => exact chase_unbound_var_lit g op x2 z l env h
          | pat evs gl gp =>
            cases g with
            | zero => exact absurd h (by simp [chase])
            | succ g2 =>
              exact absurd (show chase env (g2 + 1) (Value.pat evs gl gp)
                = some (Value.pat evs gl gp) by simp [chase]) (hy2 evs gl gp)
        | lit l =>
          cases g with
          | zero => exact absurd h (by simp [chase])
          | succ g2 => exact absurd h (by simp [chase])
        | pat evs gl gp =>
          cases g with
          | zero => exact absurd h (by simp [chase])
          | succ g2 => exact absurd h (by simp [chase])

/-- Mirror of `chase_unbound_var_var_left`: a right chain ending at an
unbound variable gives `true` provided the left chain does not run into a
`PatternMatch` value. -/
theorem chase_unbound_var_var_right : ∀ (f : Nat) (op : EqOp) (x y z : String)
    (env : Bindings), chase env f (Value.var y) = some (Value.var z) →
    (∀ evs gl gp, chase env f (Value.var x) ≠ some (Value.pat evs gl gp)) →
    unifyCompare f op (Value.var x) (Value.var y) env = some true := by
  intro f
  induction f with
  | zero => intro op x y z env h hx; exact absurd h (by simp [chase])
  | succ g ih =>
    intro op x y z env h hx
    cases hbx : bGet env x with
    | none => simp [unifyCompare, hbx]
    | some xv =>
      cases hby : bGet env y with
      | none => simp [unifyCompare, hbx, hby]
      | some yv =>
        simp only [chase, hby] at h
        have hx2 : ∀ evs gl gp, chase env g xv ≠ some (Value.pat evs gl gp) := by
          intro evs gl gp hc
          exact hx evs gl gp (by simp [chase, hbx, hc])
        have hstep : unifyCompare (g + 1) op (Value.var x) (Value.var y) env
            = unifyCompare g op xv yv env := by
          simp [unifyCompare, hbx, hby]
        rw [hstep]
        cases yv with
        | var y2 =>
          cases xv with
          | var x2 => exact ih op x2 y2 z env h hx2
          | lit l => exact chase_unbound_lit_var g op l y2 z env h
          | pat evs gl gp =>
            cases g with
            | zero => exact absurd h (by simp [chase])
            | succ g2 =>
              exact absurd (show chase env (g2 + 1) (Value.pat evs gl gp)
                = some (Value.pat evs gl gp) by simp [chase]) (hx2 evs gl gp)
        | lit l =>
          cases g with
          | zero => exact absurd h (by simp [chase])
          | succ g2 => exact absurd h (by simp [chase])
        | pat evs gl gp =>
          cases g with
          | zero => exact absurd h (by simp [chase])
          | succ g2 => exact absurd h (by simp [chase])

/-- In an environment that binds variables only to literals and variables
(which is all the unifier ever produces), no chase can end at a
`PatternMatch`. -/
theorem chase_no_pat : ∀ (env : Bindings), (∀ p ∈ env, Value.isPat p.2 = false) →
    ∀ (f : Nat) (v : Value), Value.isPat v = false →
    ∀ evs gl gp, chase env f v ≠ some (Value.pat evs gl gp) := by
  intro env henv f
  induction f with
  | zero => intro v hv evs gl gp hc; simp [chase] at hc
  | succ g ih =>
    intro v hv evs gl gp hc
    cases v with
    | lit d => simp [chase] at hc
    | pat e2 g2 p2 => simp [Value.isPat] at hv
    | var x =>
      cases hb : bGet env x with
      | none => simp [chase, hb] at hc
      | some w =>
        simp only [chase, hb] at hc
        have hw : Value.isPat w = false := by
          have hex : ∃ p, env.find? (fun p => p.1 == x) = some p ∧ p.2 = w := by
            unfold bGet at hb
            cases hf : env.find? (fun p => p.1 == x) with
            | none => rw [hf] at hb; simp at hb
            | some p =>
              rw [hf] at hb
              simp at hb
              exact ⟨p, rfl, hb⟩
          obtain ⟨p, hf, hpw⟩ := hex
          have hmem := List.mem_of_find?_eq_some hf
          rw [← hpw]
          exact henv p hmem
        exact ih w hw evs gl gp hc

/- ------------------------------------------------------------------ -/
/- Claim theorems.                                                    -/
/- ------------------------------------------------------------------ -/

/-- C3: evaluation of the source equality at the failing input.  The Rust
`PartialEq` has no `List`/`List` arm, so `List([]) == List([])` is `false`
even though the same-tag structural equality (the `specEq` reading of
section 3, also asserted by the accompanying `impl Eq`) makes it `true`;
the remaining parts of the claim (`Number(n) = Float(n, 0)`, case-insensitive
`RelationID` equality, cross-tag inequality) do hold of the source. -/
theorem C3_list_equality_bug :
    dbvEq (DBValue.list []) (DBValue.list []) = false ∧
    specEq (DBValue.list []) (DBValue.list []) = true ∧
    dbvEq (DBValue.number 3) (DBValue.float 3 0) = true ∧
    dbvEq (DBValue.float 3 0) (DBValue.number 3) = true ∧
    dbvEq (DBValue.relationID "abc") (DBValue.relationID "AbC") = true ∧
    dbvEq (DBValue.text "1") (DBValue.number 1) = false := by
  refine ⟨rfl, ?_, rfl, rfl, ?_, rfl⟩
  · simp [specEq, specEqList]
  · rfl

/-- C7: the `Tail` glob arm unifies the explicit values against the last
`n` elements of the ground list taken in reverse order: the `k`-th explicit
value meets the `k`-th element from the end. -/
theorem C7_tail_glob_reversed : ∀ (f : Nat) (l : List DBValue) (ev : List Value) (b : Bindings),
    unifyPatternMatch (f + 1) l ev true GlobPosition.tail b =
      laxUnify f ev (((l.drop (l.length - ev.length)).reverse).map Value.lit) b := by
  intro f l ev b
  have h1 : unifyPatternMatch (f + 1) l ev true GlobPosition.tail b =
      laxUnify f ev ((l.reverse.take ev.length).map Value.lit) b := rfl
  rw [h1, reverse_take_eq_drop_reverse]

/-- C2 counterexample: matching the claimed example — the ground list
`[1, 2, 3, 4]` against the `Middle` glob pattern `[Literal 9, Variable X]` —
does not return an `Err` with a bound key as the claim states: the Rust
slice `list[i..i+n]` is out of range at `i = 3` and the call aborts. -/
theorem C2_counterexample :
    unifyPatternMatch 12
      [DBValue.number 1, DBValue.number 2, DBValue.number 3, DBValue.number 4]
      [Value.lit (DBValue.number 9), Value.var "X"] true GlobPosition.middle []
      = URes.panic ∧
    isErrWithKey (unifyPatternMatch 12
      [DBValue.number 1, DBValue.number 2, DBValue.number 3, DBValue.number 4]
      [Value.lit (DBValue.number 9), Value.var "X"] true GlobPosition.middle [])
      = false :=
  ⟨rfl, rfl⟩

/-- C2 amended: for the claimed example the `Middle` loop attempts the start
indices `0`, `1` and `2` as ordinary failed unifications and then panics at
`i = 3`, whose slice end `3 + 2` exceeds the list length `4` — under every
incoming environment and every fuel budget the match aborts instead of
returning an `Err`. -/
theorem C2_middle_glob_panics : ∀ (f : Nat) (b : Bindings),
    unifyPatternMatch (f + 12) c2List c2Pattern true GlobPosition.middle b
      = URes.panic := by
  intro f b
  have h3 : ∀ (g : Nat) (out : URes),
      uRun (g + 1) (UCall.middle (c2List.map Value.lit) c2Pattern 2 b 3 out)
        = URes.panic :=
    fun g out => rfl
  have h2 : ∀ (g : Nat) (out : URes),
      uRun (g + 3) (UCall.middle (c2List.map Value.lit) c2Pattern 2 b 2 out)
        = URes.panic := by
    intro g out
    cases out with
    | ok b0 => exact h3 (g + 1) (URes.ok b0)
    | panic => exact h3 (g + 1) URes.panic
    | fuelOut => exact h3 (g + 1) URes.fuelOut
    | err bOut =>
      have hstep : uRun (g + 3)
          (UCall.middle (c2List.map Value.lit) c2Pattern 2 b 2 (URes.err bOut)) =
          if bOut.length < b.length then
            uRun (g + 2) (UCall.middle (c2List.map Value.lit) c2Pattern 2 b 3 (URes.err b))
          else
            uRun (g + 2) (UCall.middle (c2List.map Value.lit) c2Pattern 2 b 3 (URes.err bOut)) :=
        rfl
      rw [hstep]
      split
      · exact h3 (g + 1) (URes.err b)
      · exact h3 (g + 1) (URes.err bOut)
  have h1 : ∀ (g : Nat) (out : URes),
      uRun (g + 5) (UCall.middle (c2List.map Value.lit) c2Pattern 2 b 1 out)
        = URes.panic := by
    intro g out
    cases out with
    | ok b0 => exact h2 (g + 1) (URes.ok b0)
    | panic => exact h2 (g + 1) URes.panic
    | fuelOut => exact h2 (g + 1) URes.fuelOut
    | err bOut =>
      have hstep : uRun (g + 5)
          (UCall.middle (c2List.map Value.lit) c2Pattern 2 b 1 (URes.err bOut)) =
          if bOut.length < b.length then
            uRun (g + 4) (UCall.middle (c2List.map Value.lit) c2Pattern 2 b 2 (URes.err b))
          else
            uRun (g + 4) (UCall.middle (c2List.map Value.lit) c2Pattern 2 b 2 (URes.err bOut)) :=
        rfl
      rw [hstep]
      split
      · exact h2 (g + 1) (URes.err b)
      · exact h2 (g + 1) (URes.err bOut)
  have h0 : ∀ (g : Nat) (out : URes),
      uRun (g + 7) (UCall.middle (c2List.map Value.lit) c2Pattern 2 b 0 out)
        = URes.panic := by
    intro g out
    cases out with
    | ok b0 => exact h1 (g + 1) (URes.ok b0)
    | panic => exact h1 (g + 1) URes.panic
    | fuelOut => exact h1 (g + 1) URes.fuelOut
    | err bOut =>
      have hstep : uRun (g + 7)
          (UCall.middle (c2List.map Value.lit) c2Pattern 2 b 0 (URes.err bOut)) =
          if bOut.length < b.length then
            uRun (g + 6) (UCall.middle (c2List.map Value.lit) c2Pattern 2 b 1 (URes.err b))
          else
            uRun (g + 6) (UCall.middle (c2List.map Value.lit) c2Pattern 2 b 1 (URes.err bOut)) :=
        rfl
      rw [hstep]
      split
      · exact h1 (g + 1) (URes.err b)
      · exact h1 (g + 1) (URes.err bOut)
  have htop : unifyPatternMatch (f + 12) c2List c2Pattern true GlobPosition.middle b
      = uRun (f + 11) (UCall.middle (c2List.map Value.lit) c2Pattern 2 b 0 (URes.err [])) :=
    rfl
  rw [htop]
  exact h0 (f + 4) (URes.err [])

/-- C5: the `Not` arm yields exactly the inner constraint stream with every
`Ok` item turned into `Err` and every `Err` item turned into `Ok`,
preserving item order and count. -/
theorem C5_not_flips_stream : ∀ (fuel : Nat) (db : Database) (c : Constraint) (env : Bindings),
    possible fuel db (Constraint.not c) env = (possible fuel db c env).map flipRes ∧
    (possible fuel db (Constraint.not c) env).length = (possible fuel db c env).length ∧
    flipRes (URes.ok env) = URes.err env ∧
    flipRes (URes.err env) = URes.ok env := by
  intro fuel db c env
  refine ⟨?_, ?_, rfl, rfl⟩ <;> simp [possible]

/-- C10: a `Relation` constraint whose id has no entry in the fact table
produces the empty stream: no `Ok` items, no `Err` items, no error signal. -/
theorem C10_relation_no_entry : ∀ (fuel : Nat) (db : Database) (id : String)
    (tokens : List Value) (env : Bindings),
    mGet db.facts id = none →
    possible fuel db (Constraint.relation id tokens) env = [] := by
  intro fuel db id tokens env h
  simp [possible, innerFactSeq, h]

/-- C10 witness: the empty database under the relation id `Q`. -/
theorem C10_witness :
    possible 3 ⟨[], []⟩ (Constraint.relation "Q" [Value.var "X"]) [] = [] :=
  C10_relation_no_entry 3 ⟨[], []⟩ "Q" [Value.var "X"] [] rfl

theorem factSeqFrom_eq_map (fuel : Nat) (tokens : List Value) (env : Bindings)
    (facts : List (List DBValue)) :
    ∀ idx, factSeqFrom fuel tokens env facts idx =
      (facts.drop idx).map (fun fact => laxUnify fuel tokens (fact.map Value.lit) env) := by
  have key : ∀ (n idx : Nat), facts.length - idx = n →
      factSeqFrom fuel tokens env facts idx =
        (facts.drop idx).map (fun fact => laxUnify fuel tokens (fact.map Value.lit) env) := by
    intro n
    induction n with
    | zero =>
      intro idx hi
      have hge : facts.length ≤ idx := by omega
      rw [factSeqFrom, dif_neg (by omega), List.drop_eq_nil_of_le hge]
      rfl
    | succ n ih =>
      intro idx hi
      have hlt : idx < facts.length := by omega
      rw [factSeqFrom, dif_pos hlt, ih (idx + 1) (by omega)]
      have hlt2 : idx < (List.map
          (fun fact => laxUnify fuel tokens (fact.map Value.lit) env) facts).length := by
        simpa using hlt
      simp only [List.map_drop]
      rw [List.drop_eq_getElem_cons hlt2, List.getElem_map]
      simp [List.getD_eq_getElem?_getD, List.getElem?_eq_getElem hlt]
  exact fun idx => key (facts.length - idx) idx rfl

/-- C4: a `Relation(id, tokens)` constraint yields exactly one item per fact
stored under `id`, in stored (insertion) order; each item is the `Ok` or
`Err` outcome of lax unification of `tokens` against the fact viewed as
literals under `env`, errors included — and the stream never consults the
rule table, so no rule-derived items appear for any database. -/
theorem C4_relation_stream : ∀ (fuel : Nat) (db : Database) (id : String)
    (tokens : List Value) (env : Bindings),
    possible fuel db (Constraint.relation id tokens) env =
      ((mGet db.facts id).getD []).map
        (fun fact => laxUnify fuel tokens (fact.map Value.lit) env) := by
  intro fuel db id tokens env
  cases hm : mGet db.facts id with
  | none => simp [possible, innerFactSeq, hm]
  | some facts => simp [possible, innerFactSeq, hm, factSeqFrom_eq_map]

/-- C8: `insert_fact` requires a `RelationID` at index 1 of the tuple; it
removes that element and appends the remainder after any previously stored
facts of the upper-cased relation; a tuple that is too short or carries a
non-`RelationID` at index 1 is fatal (modelled `none`), leaving no modified
database behind. -/
theorem C8_insert_fact : ∀ (db : Database) (vs : List DBValue),
    (∀ rel, vs[1]? = some (DBValue.relationID rel) →
      insertFact db vs = some ⟨mSet db.facts (toUpperStr rel)
        (((mGet db.facts (toUpperStr rel)).getD []) ++ [vs.eraseIdx 1]), db.rules⟩) ∧
    (vs.length < 2 → insertFact db vs = none) ∧
    (∀ v, vs[1]? = some v → (∀ rel, v ≠ DBValue.relationID rel) →
      insertFact db vs = none) := by
  intro db vs
  refine ⟨?_, ?_, ?_⟩
  · intro rel h
    cases hm : mGet db.facts (toUpperStr rel) with
    | none => simp [insertFact, h, hm]
    | some rels => simp [insertFact, h, hm]
  · intro h
    have h1 : vs[1]? = none := List.getElem?_eq_none (by omega)
    simp [insertFact, h1]
  · intro v h hne
    cases v with
    | relationID r => exact absurd rfl (hne r)
    | text s => simp [insertFact, h]
    | number n => simp [insertFact, h]
    | float n d => simp [insertFact, h]
    | list l => simp [insertFact, h]

/-- C8 witness: a well-shaped tuple is stored under the upper-cased id with
its index-1 element removed; a one-element tuple and a tuple with a number
at index 1 are both fatal. -/
theorem C8_witness :
    insertFact ⟨[], []⟩ [DBValue.text "a", DBValue.relationID "p", DBValue.text "b"]
      = some ⟨[("P", [[DBValue.text "a", DBValue.text "b"]])], []⟩ ∧
    insertFact ⟨[], []⟩ [DBValue.text "a"] = none ∧
    insertFact ⟨[], []⟩ [DBValue.text "a", DBValue.number 1] = none := by
  refine ⟨?_, ?_, ?_⟩
  · exact ((C8_insert_fact ⟨[], []⟩
      [DBValue.text "a", DBValue.relationID "p", DBValue.text "b"]).1 "p" rfl).trans (by rfl)
  · exact (C8_insert_fact ⟨[], []⟩ [DBValue.text "a"]).2.1 (by decide)
  · exact (C8_insert_fact ⟨[], []⟩ [DBValue.text "a", DBValue.number 1]).2.2
      (DBValue.number 1) rfl (fun rel hc => DBValue.noConfusion hc)

/-- C9: unifying `Variable(x)` against `Variable(y)` when `x` is already
bound succeeds and rebinds `x` to `Variable(y)`, unconditionally replacing
the previous binding of `x` in the resulting environment. -/
theorem C9_varvar_overwrite : ∀ (f : Nat) (env : Bindings) (x y : String),
    (bGet env x).isSome = true →
    laxUnify (f + 2) [Value.var x] [Value.var y] env
      = URes.ok (bInsert env x (Value.var y)) ∧
    bGet (bInsert env x (Value.var y)) x = some (Value.var y) := by
  intro f env x y _h
  refine ⟨rfl, ?_⟩
  simp [bGet, bInsert]

/-- C9 witness: an environment binding `X` to the literal `7` gets that
binding silently replaced by `Variable Y`. -/
theorem C9_witness :
    laxUnify 2 [Value.var "X"] [Value.var "Y"] [("X", Value.lit (DBValue.number 7))]
      = URes.ok [("X", Value.var "Y")] ∧
    bGet [("X", Value.var "Y")] "X" = some (Value.var "Y") := by
  have h := C9_varvar_overwrite 0 [("X", Value.lit (DBValue.number 7))] "X" "Y" rfl
  exact ⟨h.1, h.2⟩

/-- C6 counterexample: on the literal pair `RelationID "a"`, `RelationID
"A"` the section 3 ordering is undefined, yet the `=` operator returns
`true` (the Rust `EqualTo` arm uses `PartialEq`, which is case-insensitive
on relation ids, not the ordering). -/
theorem C6_counterexample :
    unifyCompare 1 EqOp.equalTo (Value.lit (DBValue.relationID "a"))
      (Value.lit (DBValue.relationID "A")) [] = some true ∧
    dbvPartialCmp (DBValue.relationID "a") (DBValue.relationID "A") = none :=
  ⟨rfl, rfl⟩

/-- C6 amended: on two literals the four order operators return the
section 3 ordering verdict (so an undefined ordering yields `false` for
them), while `=` returns the implemented `DBValue` equality verdict, which
can be `true` on pairs whose ordering is undefined; a variable that is
unbound in the environment — directly, or after chasing bindings on bound
sides (against a literal unconditionally; against another variable for
environments that bind variables only to literals and variables, which is
all the unifier produces) — makes every comparison `true`; and any argument
pair involving a `PatternMatch` yields `false`. -/
theorem C6_compare_amended :
    (∀ (f : Nat) (op : EqOp) (x y : DBValue) (env : Bindings), op ≠ EqOp.equalTo →
      dbvPartialCmp x y = none →
      unifyCompare (f + 1) op (Value.lit x) (Value.lit y) env = some false) ∧
    (∀ (f : Nat) (x y : DBValue) (env : Bindings),
      unifyCompare (f + 1) EqOp.equalTo (Value.lit x) (Value.lit y) env
        = some (dbvEq x y)) ∧
    (∀ (f : Nat) (x y : DBValue) (env : Bindings),
      unifyCompare (f + 1) EqOp.greaterThan (Value.lit x) (Value.lit y) env
        = some (dbvPartialCmp x y == some Ordering.gt)) ∧
    (∀ (f : Nat) (x y : DBValue) (env : Bindings),
      unifyCompare (f + 1) EqOp.lessThan (Value.lit x) (Value.lit y) env
        = some (dbvPartialCmp x y == some Ordering.lt)) ∧
    (∀ (f : Nat) (x y : DBValue) (env : Bindings),
      unifyCompare (f + 1) EqOp.lessThanOrEqualTo (Value.lit x) (Value.lit y) env
        = some (dbvPartialCmp x y == some Ordering.lt ||
            dbvPartialCmp x y == some Ordering.eq)) ∧
    (∀ (f : Nat) (x y : DBValue) (env : Bindings),
      unifyCompare (f + 1) EqOp.greaterThanOrEqualTo (Value.lit x) (Value.lit y) env
        = some (dbvPartialCmp x y == some Ordering.gt ||
            dbvPartialCmp x y == some Ordering.eq)) ∧
    (∀ (f : Nat) (op : EqOp) (x : String) (d : DBValue) (env : Bindings),
      bGet env x = none →
      unifyCompare (f + 1) op (Value.var x) (Value.lit d) env = some true) ∧
    (∀ (f : Nat) (op : EqOp) (x : String) (d : DBValue) (env : Bindings),
      bGet env x = none →
      unifyCompare (f + 1) op (Value.lit d) (Value.var x) env = some true) ∧
    (∀ (f : Nat) (op : EqOp) (x y : String) (env : Bindings),
      bGet env x = none ∨ bGet env y = none →
      unifyCompare (f + 1) op (Value.var x) (Value.var y) env = some true) ∧
    (∀ (f : Nat) (op : EqOp) (x z : String) (d : DBValue) (env : Bindings),
      chase env f (Value.var x) = some (Value.var z) →
      unifyCompare f op (Value.var x) (Value.lit d) env = some true) ∧
    (∀ (f : Nat) (op : EqOp) (x z : String) (d : DBValue) (env : Bindings),
      chase env f (Value.var x) = some (Value.var z) →
      unifyCompare f op (Value.lit d) (Value.var x) env = some true) ∧
    (∀ (f : Nat) (op : EqOp) (x z y : String) (env : Bindings),
      (∀ p ∈ env, Value.isPat p.2 = false) →
      chase env f (Value.var x) = some (Value.var z) →
      unifyCompare f op (Value.var x) (Value.var y) env = some true) ∧
    (∀ (f : Nat) (op : EqOp) (x y z : String) (env : Bindings),
      (∀ p ∈ env, Value.isPat p.2 = false) →
      chase env f (Value.var y) = some (Value.var z) →
      unifyCompare f op (Value.var x) (Value.var y) env = some true) ∧
    (∀ (f : Nat) (op : EqOp) (a b : Value) (env : Bindings),
      a.isPat = true ∨ b.isPat = true →
      unifyCompare (f + 1) op a b env = some false) := by
  refine ⟨?_, fun f x y env => rfl, fun f x y env => rfl, fun f x y env => rfl,
    fun f x y env => rfl, fun f x y env => rfl, ?_, ?_, ?_,
    fun f op x z d env h => chase_unbound_var_lit f op x z d env h,
    fun f op x z d env h => chase_unbound_lit_var f op d x z env h,
    fun f op x z y env henv h => chase_unbound_var_var_left f op x z y env h
      (chase_no_pat env henv f (Value.var y) rfl),
    fun f op x y z env henv h => chase_unbound_var_var_right f op x y z env h
      (chase_no_pat env henv f (Value.var x) rfl),
    ?_⟩
  · intro f op x y env hop hnone
    cases op with
    | equalTo => exact absurd rfl hop
    | greaterThan => simp [unifyCompare, hnone]
    | lessThan => simp [unifyCompare, hnone]
    | lessThanOrEqualTo => simp [unifyCompare, hnone]
    | greaterThanOrEqualTo => simp [unifyCompare, hnone]
  · intro f op x d env h
    simp [unifyCompare, h]
  · intro f op x d env h
    simp [unifyCompare, h]
  · intro f op x y env h
    rcases h with h | h
    · simp [unifyCompare, h]
    · cases hx : bGet env x with
      | none => simp [unifyCompare, hx]
      | some xval => simp [unifyCompare, hx, h]
  · intro f op a b env h
    cases a <;> cases b <;> simp [Value.isPat] at h <;> rfl

/-- C6 witness: samples of each conditional part of the amended theorem at
concrete inputs, including a variable that is unbound only after chasing
the chain `X` bound to `Z` with `Z` unbound. -/
theorem C6_witness :
    unifyCompare 1 EqOp.greaterThan (Value.lit (DBValue.text "t"))
      (Value.lit (DBValue.number 0)) [] = some false ∧
    unifyCompare 1 EqOp.lessThan (Value.var "Z") (Value.lit (DBValue.number 0)) []
      = some true ∧
    unifyCompare 1 EqOp.lessThan (Value.lit (DBValue.number 0)) (Value.var "Z") []
      = some true ∧
    unifyCompare 1 EqOp.equalTo (Value.var "Z") (Value.var "W") [] = some true ∧
    unifyCompare 2 EqOp.lessThan (Value.var "X") (Value.lit (DBValue.number 0))
      [("X", Value.var "Z")] = some true ∧
    unifyCompare 2 EqOp.lessThan (Value.lit (DBValue.number 0)) (Value.var "X")
      [("X", Value.var "Z")] = some true ∧
    unifyCompare 2 EqOp.equalTo (Value.var "X") (Value.var "Y")
      [("X", Value.var "Z")] = some true ∧
    unifyCompare 2 EqOp.equalTo (Value.var "Y") (Value.var "X")
      [("X", Value.var "Z")] = some true ∧
    unifyCompare 1 EqOp.equalTo (Value.pat [] true GlobPosition.head)
      (Value.lit (DBValue.number 0)) [] = some false := by
  have henv : ∀ p ∈ [("X", Value.var "Z")], Value.isPat p.2 = false := by
    intro p hp
    rw [List.mem_singleton] at hp
    subst hp
    rfl
  exact ⟨C6_compare_amended.1 0 EqOp.greaterThan (DBValue.text "t") (DBValue.number 0) []
      (fun hc => EqOp.noConfusion hc) rfl,
    C6_compare_amended.2.2.2.2.2.2.1 0 EqOp.lessThan "Z" (DBValue.number 0) [] rfl,
    C6_compare_amended.2.2.2.2.2.2.2.1 0 EqOp.lessThan "Z" (DBValue.number 0) [] rfl,
    C6_compare_amended.2.2.2.2.2.2.2.2.1 0 EqOp.equalTo "Z" "W" [] (Or.inl rfl),
    C6_compare_amended.2.2.2.2.2.2.2.2.2.1 2 EqOp.lessThan "X" "Z" (DBValue.number 0)
      [("X", Value.var "Z")] rfl,
    C6_compare_amended.2.2.2.2.2.2.2.2.2.2.1 2 EqOp.lessThan "X" "Z" (DBValue.number 0)
      [("X", Value.var "Z")] rfl,
    C6_compare_amended.2.2.2.2.2.2.2.2.2.2.2.1 2 EqOp.equalTo "X" "Z" "Y"
      [("X", Value.var "Z")] henv rfl,
    C6_compare_amended.2.2.2.2.2.2.2.2.2.2.2.2.1 2 EqOp.equalTo "Y" "X" "Z"
      [("X", Value.var "Z")] henv rfl,
    C6_compare_amended.2.2.2.2.2.2.2.2.2.2.2.2.2 0 EqOp.equalTo
      (Value.pat [] true GlobPosition.head) (Value.lit (DBValue.number 0)) [] (Or.inl rfl)⟩

theorem dbvEq_implies_specEq : ∀ x y : DBValue, dbvEq x y = true → specEq x y = true := by
  intro x y h
  cases x <;> cases y <;> simp_all [dbvEq, specEq]

/-- Every `Ok` run of the unifier has passed the source equality test on
each position where both sequences carry literals: the `Literal`/`Literal`
arm is the only arm that can face two literals, and it only continues when
`dbvEq` holds. -/
theorem uRun_ok_lit_positions : ∀ (fuel : Nat) (av bv : List Value) (b b2 : Bindings),
    uRun fuel (UCall.unify av bv b) = URes.ok b2 →
    ∀ (k : Nat) (x y : DBValue),
      av[k]? = some (Value.lit x) → bv[k]? = some (Value.lit y) →
      dbvEq x y = true := by
  intro fuel
  induction fuel with
  | zero =>
    intro av bv b b2 h
    exact absurd h (by simp [uRun])
  | succ fuel ih =>
    intro av bv b b2 h k x y hx hy
    match av, bv with
    | [], _ => simp at hx
    | _ :: _, [] => simp at hy
    | i :: av', j :: bv' =>
      cases k with
      | zero =>
        simp only [List.getElem?_cons_zero, Option.some.injEq] at hx hy
        subst hx
        subst hy
        simp only [uRun] at h
        by_cases hd : dbvEq x y = true
        · exact hd
        · rw [Bool.not_eq_true] at hd
          rw [if_neg (by simp [hd])] at h
          exact URes.noConfusion h
      | succ k' =>
        simp only [List.getElem?_cons_succ] at hx hy
        simp only [uRun] at h
        split at h
        · -- lit / lit
          split at h
          · exact ih av' bv' _ _ h k' x y hx hy
          · exact URes.noConfusion h
        · -- var / lit, chasing the bound value
          split at h
          · split at h
            · exact ih av' bv' _ _ h k' x y hx hy
            · rename_i hne
              exact absurd h (hne _)
          · exact ih av' bv' _ _ h k' x y hx hy
        · -- lit / var, chasing the bound value
          split at h
          · split at h
            · exact ih av' bv' _ _ h k' x y hx hy
            · rename_i hne
              exact absurd h (hne _)
          · exact ih av' bv' _ _ h k' x y hx hy
        · -- var / var
          exact ih av' bv' _ _ h k' x y hx hy
        · -- list literal / pattern
          split at h
          · exact ih av' bv' _ _ h k' x y hx hy
          · rename_i hne
            exact absurd h (hne _)
        · -- pattern / list literal
          split at h
          · exact ih av' bv' _ _ h k' x y hx hy
          · rename_i hne
            exact absurd h (hne _)
        · -- every remaining combination fails immediately
          exact URes.noConfusion h

/-- C1 counterexample: unifying `[Variable X, Variable X]` against
`[Literal 5, Variable Y]` under the empty environment returns `Ok` with the
single binding `X to Variable Y` (the `Variable`/`Variable` arm overwrote
the earlier binding `X to 5`), and substituting that environment leaves
position 0 as `Variable Y` on the left against the literal `5` on the
right — the two sequences are not pairwise-equal under any reading of the
section 3 equality. -/
theorem C1_counterexample :
    laxUnify 5 [Value.var "X", Value.var "X"]
      [Value.lit (DBValue.number 5), Value.var "Y"] []
      = URes.ok [("X", Value.var "Y")] ∧
    substValue 5 [("X", Value.var "Y")] (Value.var "X") = Value.var "Y" ∧
    substValue 5 [("X", Value.var "Y")] (Value.lit (DBValue.number 5))
      = Value.lit (DBValue.number 5) ∧
    Value.var "Y" ≠ Value.lit (DBValue.number 5) :=
  ⟨rfl, rfl, rfl, fun hc => Value.noConfusion hc⟩

/-- C1 amended: after an `Ok` run of `lax_unify`, the guarantee holds at
the positions where both sequences carry `Literal` values (substitution
leaves literals unchanged): such a pair passed the implemented equality
test and is therefore equal under the section 3 equality.  Positions
involving variables or patterns carry no such guarantee, as the
counterexample shows. -/
theorem C1_unify_ok_literal_positions : ∀ (fuel : Nat) (av bv : List Value) (b b2 : Bindings),
    laxUnify fuel av bv b = URes.ok b2 →
    ∀ (k : Nat) (x y : DBValue),
      av[k]? = some (Value.lit x) → bv[k]? = some (Value.lit y) →
      specEq x y = true :=
  fun fuel av bv b b2 h k x y hx hy =>
    dbvEq_implies_specEq x y (uRun_ok_lit_positions fuel av bv b b2 h k x y hx hy)

/-- C1 amended witness: a literal pair that unifies. -/
theorem C1_literal_positions_witness :
    laxUnify 3 [Value.lit (DBValue.number 1)] [Value.lit (DBValue.number 1)] []
      = URes.ok [] ∧
    specEq (DBValue.number 1) (DBValue.number 1) = true :=
  ⟨rfl, C1_unify_ok_literal_positions 3 [Value.lit (DBValue.number 1)]
    [Value.lit (DBValue.number 1)] [] [] rfl 0 (DBValue.number 1) (DBValue.number 1) rfl rfl⟩

end AtomicDB
